import Mathlib

/-!
Shallow embedding of the concurrency/resource-management core of the
Post-Processing repository (src/models.py, src/key_manager.py,
src/data_manager.py, src/autonomous_worker.py), together with theorems
settling the frozen claims C1..C10 about it.

Conventions of the embedding:
- Python `float` timestamps are modelled as rationals (`ℚ`).
- Python `dict` objects are modelled as association lists in insertion
  order; `dictGet` is first-occurrence lookup (Python dicts have unique
  keys, so this is the dict lookup), `dictInsert` is `d[k] = v`
  (replace in place, else append), `dictUpdate` is `d.update(other)`.
- Stateful methods become explicit state-passing functions.
- The external service call is the sole source of non-determinism; it is
  passed in as data (a response per attempt).
-/

namespace PostProcessing

/-! ## Low-level helpers: 32-bit words, UTF-8, substring test -/

/-- 2 to the power 32, the modulus of 32-bit arithmetic. -/
def M32 : Nat := 4294967296

/-- Truncate to a 32-bit word. -/
def w32 (n : Nat) : Nat := n % M32

/-- Bitwise NOT on 32-bit words (the operand is assumed reduced mod 2^32). -/
def not32 (n : Nat) : Nat := 4294967295 - w32 n

/-- Left-rotate a 32-bit word by `s` places (0 < s < 32). -/
def rotl32 (x s : Nat) : Nat := w32 (x <<< s) ||| (w32 x >>> (32 - s))

/-- UTF-8 encoding of one character, as a list of byte values. -/
def charUtf8 (c : Char) : List Nat :=
  let n := c.toNat
  if n < 128 then [n]
  else if n < 2048 then [192 + n / 64, 128 + n % 64]
  else if n < 65536 then [224 + n / 4096, 128 + (n / 64) % 64, 128 + n % 64]
  else [240 + n / 262144, 128 + (n / 4096) % 64, 128 + (n / 64) % 64, 128 + n % 64]

/-- UTF-8 encoding of a string, as a list of byte values (the Python
UTF-8 encode of a string). -/
def utf8Bytes (s : String) : List Nat := s.data.flatMap charUtf8

/-- Does `n` occur as a contiguous sublist of the second argument? -/
def isSubList (n : List Char) : List Char → Bool
  | [] => n.isEmpty
  | h :: t => n.isPrefixOf (h :: t) || isSubList n t

/-- Python `needle in hay` on strings: substring containment. -/
def substr (needle hay : String) : Bool := isSubList needle.data hay.data

/-- Python `s.startswith(p)`. -/
def pyStartsWith (p s : String) : Bool := p.data.isPrefixOf s.data

/-- The characters before the first occurrence of (non-empty) `sep`, or
all of them when `sep` does not occur. -/
def beforeSep (sep : List Char) : List Char → List Char
  | [] => []
  | c :: rest => if sep.isPrefixOf (c :: rest) then [] else c :: beforeSep sep rest

/-- Python `s.split(sep)[0]` for a non-empty separator. -/
def pySplitHead (s sep : String) : String := String.mk (beforeSep sep.data s.data)

/-- Python `s.lower()` (ASCII model). -/
def pyLower (s : String) : String := String.mk (s.data.map Char.toLower)

/-- Python `s.strip()`: drop leading and trailing whitespace. -/
def pyStrip (s : String) : String :=
  String.mk (((s.data.dropWhile Char.isWhitespace).reverse.dropWhile
    Char.isWhitespace).reverse)

/-! ## MD5 (RFC 1321), used by `BookGroup._generate_hash`

A direct functional transcription: pad the byte stream, split into
64-byte chunks, run the 64-round compression per chunk, output the four
state words as little-endian bytes in lowercase hex. -/

/-- The 64 round constants K of MD5. -/
def mdKTable : List Nat :=
  [0xd76aa478, 0xe8c7b756, 0x242070db, 0xc1bdceee,
   0xf57c0faf, 0x4787c62a, 0xa8304613, 0xfd469501,
   0x698098d8, 0x8b44f7af, 0xffff5bb1, 0x895cd7be,
   0x6b901122, 0xfd987193, 0xa679438e, 0x49b40821,
   0xf61e2562, 0xc040b340, 0x265e5a51, 0xe9b6c7aa,
   0xd62f105d, 0x02441453, 0xd8a1e681, 0xe7d3fbc8,
   0x21e1cde6, 0xc33707d6, 0xf4d50d87, 0x455a14ed,
   0xa9e3e905, 0xfcefa3f8, 0x676f02d9, 0x8d2a4c8a,
   0xfffa3942, 0x8771f681, 0x6d9d6122, 0xfde5380c,
   0xa4beea44, 0x4bdecfa9, 0xf6bb4b60, 0xbebfbc70,
   0x289b7ec6, 0xeaa127fa, 0xd4ef3085, 0x04881d05,
   0xd9d4d039, 0xe6db99e5, 0x1fa27cf8, 0xc4ac5665,
   0xf4292244, 0x432aff97, 0xab9423a7, 0xfc93a039,
   0x655b59c3, 0x8f0ccc92, 0xffeff47d, 0x85845dd1,
   0x6fa87e4f, 0xfe2ce6e0, 0xa3014314, 0x4e0811a1,
   0xf7537e82, 0xbd3af235, 0x2ad7d2bb, 0xeb86d391]

/-- The 64 per-round left-rotation amounts of MD5. -/
def mdSTable : List Nat :=
  [7, 12, 17, 22, 7, 12, 17, 22, 7, 12, 17, 22, 7, 12, 17, 22,
   5, 9, 14, 20, 5, 9, 14, 20, 5, 9, 14, 20, 5, 9, 14, 20,
   4, 11, 16, 23, 4, 11, 16, 23, 4, 11, 16, 23, 4, 11, 16, 23,
   6, 10, 15, 21, 6, 10, 15, 21, 6, 10, 15, 21, 6, 10, 15, 21]

def mdK (i : Nat) : Nat := mdKTable.getD i 0

def mdS (i : Nat) : Nat := mdSTable.getD i 0

/-- The four 32-bit state words of MD5. -/
structure MD5State where
  a : Nat
  b : Nat
  c : Nat
  d : Nat

def md5Init : MD5State := ⟨0x67452301, 0xefcdab89, 0x98badcfe, 0x10325476⟩

/-- The 8 little-endian bytes of the 64-bit bit-length field. -/
def lenBytes (len : Nat) : List Nat :=
  (List.range 8).map (fun i => len * 8 / 256 ^ i % 256)

/-- MD5 padding: a 0x80 byte, zeros to 56 mod 64, then the bit length. -/
def padBytes (msg : List Nat) : List Nat :=
  let z := (56 + 64 - (msg.length + 1) % 64) % 64
  msg ++ [128] ++ List.replicate z 0 ++ lenBytes msg.length

/-- Split a byte list into 64-byte chunks (fuelled recursion; the fuel
`l.length` always suffices because every step consumes 64 > 0 bytes). -/
def chunksGo : Nat → List Nat → List (List Nat)
  | 0, _ => []
  | _, [] => []
  | fuel + 1, l => l.take 64 :: chunksGo fuel (l.drop 64)

def chunks64 (l : List Nat) : List (List Nat) := chunksGo l.length l

/-- Read 4 bytes little-endian as a 32-bit word. -/
def leWord (bs : List Nat) : Nat := bs.foldr (fun b acc => b + 256 * acc) 0

/-- One MD5 round (round index `i`, message-word accessor `m`). -/
def md5Round (m : Nat → Nat) (st : MD5State) (i : Nat) : MD5State :=
  let fg : Nat × Nat :=
    if i < 16 then ((st.b &&& st.c) ||| (not32 st.b &&& st.d), i)
    else if i < 32 then ((st.d &&& st.b) ||| (not32 st.d &&& st.c), (5 * i + 1) % 16)
    else if i < 48 then (st.b ^^^ st.c ^^^ st.d, (3 * i + 5) % 16)
    else (st.c ^^^ (st.b ||| not32 st.d), (7 * i) % 16)
  let f := w32 (fg.1 + st.a + mdK i + m fg.2)
  ⟨st.d, w32 (st.b + rotl32 f (mdS i)), st.b, st.c⟩

/-- Process one 64-byte chunk: 64 rounds, then add into the state. -/
def md5Chunk (st : MD5State) (chunk : List Nat) : MD5State :=
  let m : Nat → Nat := fun j => leWord (((chunk.drop (4 * (j % 16))).take 4))
  let r := (List.range 64).foldl (md5Round m) st
  ⟨w32 (st.a + r.a), w32 (st.b + r.b), w32 (st.c + r.c), w32 (st.d + r.d)⟩

def hexDigit (n : Nat) : Char :=
  if n < 10 then Char.ofNat (48 + n) else Char.ofNat (87 + n)

/-- Two lowercase hex digits of a byte. -/
def byteHex (b : Nat) : List Char := [hexDigit (b / 16 % 16), hexDigit (b % 16)]

/-- The 4 little-endian bytes of a 32-bit word. -/
def wordLEBytes (w : Nat) : List Nat := (List.range 4).map (fun i => w / 256 ^ i % 256)

/-- MD5 digest of a byte list, as the usual 32-char lowercase hex string. -/
def md5hex (msg : List Nat) : String :=
  let st := (chunks64 (padBytes msg)).foldl md5Chunk md5Init
  String.mk (((wordLEBytes st.a ++ wordLEBytes st.b ++ wordLEBytes st.c ++
               wordLEBytes st.d).map byteHex).flatten)

/-! ## models.py: `BookGroup` -/

/-- src/models.py, `BookGroup._generate_hash`: first 8 hex chars of the MD5
of the strip-and-lowercase-normalised string `title|author|co_author`. -/
def generate_hash (title author co_author : String) : String :=
  let raw := pyLower (pyStrip title) ++ "|" ++ pyLower (pyStrip author) ++ "|" ++
             pyLower (pyStrip co_author)
  String.mk ((md5hex (utf8Bytes raw)).data.take 8)

/-- src/models.py, dataclass `BookGroup` (grouping keys and context data;
`content_hash` is computed from the grouping keys in `__post_init__`). -/
structure BookGroup where
  title : String
  author : String
  co_author : String
  best_edition : String := ""
  oldest_date : Option Nat := none
deriving DecidableEq, Repr

/-- The `content_hash` field computed by `BookGroup.__post_init__`. -/
def BookGroup.content_hash (g : BookGroup) : String :=
  generate_hash g.title g.author g.co_author

/-! ## key_manager.py: `KeyStatus`, `APIKey`, `KeyManager`

Timestamps are rationals. The `KeyManager` state carries the dict of
keys (association list in insertion order) and `last_file_check`. The
credential source file is modelled as `Option (ℚ × List String)`:
`none` when the file does not exist, otherwise its mtime and raw lines. -/

inductive KeyStatus where
  | active
  | cooldown
  | dead
deriving DecidableEq, Repr

/-- src/key_manager.py, dataclass `APIKey`. -/
structure APIKey where
  key : String
  status : KeyStatus := .active
  last_used : ℚ := 0
  cooldown_until : ℚ := 0
  total_requests : Nat := 0
  errors : Nat := 0
deriving DecidableEq, Repr

/-- The `APIKey(key=k)` record created for a newly discovered credential. -/
def freshKey (k : String) : APIKey := { key := k }

/-- The mutable state of a `KeyManager` (the dict `self.keys` and
`self.last_file_check`). -/
structure KMState where
  keys : List (String × APIKey)
  last_file_check : ℚ
deriving DecidableEq, Repr

/-- First-occurrence association-list lookup: Python `d[k]` / `k in d`. -/
def kfind : List (String × APIKey) → String → Option APIKey
  | [], _ => none
  | p :: ps, k => if p.1 = k then some p.2 else kfind ps k

/-- Update the entry at key `k` in place (Python `d[k].field = ...`). -/
def kupd (ks : List (String × APIKey)) (k : String) (f : APIKey → APIKey) :
    List (String × APIKey) :=
  ks.map (fun p => if p.1 = k then (p.1, f p.2) else p)

/-- src/key_manager.py line 40: keep lines that are non-blank after
stripping and do not start with a raw `#`, then strip them. -/
def parseKeyLines (raw : List String) : List String :=
  (raw.filter (fun l => pyStrip l ≠ "" && !(pyStartsWith "#" l))).map pyStrip

/-- src/key_manager.py, `KeyManager._load_keys`: no-op when the file is
absent or its mtime is not newer than `last_file_check`; otherwise add
every listed credential not already present as a fresh Active record.
Never removes or resets an existing record. -/
def load_keys (file : Option (ℚ × List String)) (s : KMState) : KMState :=
  match file with
  | none => s
  | some (mtime, raw) =>
    if mtime ≤ s.last_file_check then s
    else
      let lines := parseKeyLines raw
      let ks := lines.foldl
        (fun ks k => if (kfind ks k).isSome then ks else ks ++ [(k, freshKey k)])
        s.keys
      { keys := ks, last_file_check := mtime }

/-- src/key_manager.py lines 58-71, the selection scan inside
`get_available_key`: walk the dict in order; skip Dead keys; promote a
Cooldown key whose `cooldown_until` has strictly passed to Active and
return it; skip unexpired Cooldown keys; return the first Active key.
Returns the updated dict and the selected entry, if any. -/
def scanKeys (now : ℚ) : List (String × APIKey) →
    List (String × APIKey) × Option (String × APIKey)
  | [] => ([], none)
  | (k, ko) :: rest =>
    match ko.status with
    | .dead =>
      let r := scanKeys now rest
      ((k, ko) :: r.1, r.2)
    | .cooldown =>
      if now > ko.cooldown_until then
        let ko2 : APIKey := { ko with status := .active }
        ((k, ko2) :: rest, some (k, ko2))
      else
        let r := scanKeys now rest
        ((k, ko) :: r.1, r.2)
    | .active => ((k, ko) :: rest, some (k, ko))

/-- src/key_manager.py, `KeyManager.get_available_key`: re-check the
credential source file, then scan for a usable key. -/
def get_available_key (file : Option (ℚ × List String)) (s : KMState) (now : ℚ) :
    KMState × Option (String × APIKey) :=
  let s1 := load_keys file s
  let r := scanKeys now s1.keys
  ({ s1 with keys := r.1 }, r.2)

/-- The per-key mutation of `report_success` (src/key_manager.py lines
78-80): set `last_used`, bump `total_requests`, reset consecutive
`errors`; the status is not touched. -/
def succUpdate (now : ℚ) (ko : APIKey) : APIKey :=
  { ko with last_used := now, total_requests := ko.total_requests + 1, errors := 0 }

/-- src/key_manager.py, `KeyManager.report_success`: if the key exists,
apply `succUpdate` to its record. -/
def report_success (s : KMState) (key_str : String) (now : ℚ) : KMState :=
  match kfind s.keys key_str with
  | none => s
  | some _ => { s with keys := kupd s.keys key_str (succUpdate now) }

/-- The per-key mutation of `report_failure` (src/key_manager.py lines
86-97): bump `errors`; a 429/Quota error puts the key in Cooldown for 24
hours; otherwise a 400/API_KEY_INVALID error marks it Dead; any other
error string changes no status. -/
def failUpdate (e : String) (now : ℚ) (ko : APIKey) : APIKey :=
  let ko1 : APIKey := { ko with errors := ko.errors + 1 }
  if substr "429" e || substr "Quota" e then
    { ko1 with status := .cooldown, cooldown_until := now + 60 * 60 * 24 }
  else if substr "400" e || substr "API_KEY_INVALID" e then
    { ko1 with status := .dead }
  else ko1

/-- src/key_manager.py, `KeyManager.report_failure`. -/
def report_failure (s : KMState) (key_str error_type : String) (now : ℚ) : KMState :=
  match kfind s.keys key_str with
  | none => s
  | some _ => { s with keys := kupd s.keys key_str (failUpdate error_type now) }

/-- The error classes of the spec, as decided by the string tests of
`report_failure` (a string matching both the 429/Quota and the
400/API_KEY_INVALID tests is classified by the first branch). -/
inductive ErrorClass where
  | resourceExhausted
  | invalidCredential
  | generic
deriving DecidableEq, Repr

def classify (e : String) : ErrorClass :=
  if substr "429" e || substr "Quota" e then .resourceExhausted
  else if substr "400" e || substr "API_KEY_INVALID" e then .invalidCredential
  else .generic

/-- A pool entry the selection scan can stop at, at time `now`. -/
def Selectable (now : ℚ) (ko : APIKey) : Prop :=
  ko.status = .active ∨ (ko.status = .cooldown ∧ now > ko.cooldown_until)

/-! ## config.py / autonomous_worker.py: the per-credential throttle -/

/-- src/config.py: `RATE_LIMIT_DELAY = 4.0`. -/
def RATE_LIMIT_DELAY : ℚ := 4

/-- src/autonomous_worker.py lines 143-145: how long the worker sleeps
after acquiring a key, given the current time and the key record
`last_used` value. -/
def throttleWait (now last_used : ℚ) : ℚ :=
  let time_since_use := now - last_used
  if time_since_use < RATE_LIMIT_DELAY then RATE_LIMIT_DELAY - time_since_use else 0

/-- The time at which the worker actually uses the key: acquisition time
plus the throttle sleep. -/
def useTime (now last_used : ℚ) : ℚ := now + throttleWait now last_used

/-! ## data_manager.py: the checkpoint store

Result payloads are abstract (`ρ`). The authoritative in-memory map
`results_cache` is a Python dict, modelled as an association list in
insertion order; `dictInsert` is `d[k] = v` and `dictUpdate` is
`d.update(batch)`. The durable file holds either nothing (never written)
or a complete snapshot of the map. -/

/-- First-occurrence lookup in a result map (Python `d[k]`). -/
def dictGet {ρ : Type} : List (String × ρ) → String → Option ρ
  | [], _ => none
  | p :: ps, k => if p.1 = k then some p.2 else dictGet ps k

/-- Python `d[k] = v`: replace the value in place if the key exists,
else append the pair. -/
def dictInsert {ρ : Type} : List (String × ρ) → String → ρ → List (String × ρ)
  | [], k, v => [(k, v)]
  | p :: ps, k, v => if p.1 = k then (k, v) :: ps else p :: dictInsert ps k v

/-- Python `d.update(other)`: insert the entries of `other` in order. -/
def dictUpdate {ρ : Type} (m entries : List (String × ρ)) : List (String × ρ) :=
  entries.foldl (fun acc p => dictInsert acc p.1 p.2) m

/-- First of two options; used to express last-occurrence lookup. -/
def orO {ρ : Type} : Option ρ → Option ρ → Option ρ
  | some v, _ => some v
  | none, b => b

/-- The value the LAST entry of `entries` with key `k` carries, if any
(the last-submitted value for an item id). -/
def lastVal {ρ : Type} : List (String × ρ) → String → Option ρ
  | [], _ => none
  | p :: es, k => orO (lastVal es k) (if p.1 = k then some p.2 else none)

/-- The writer-visible state of a `DataManager`: the in-memory
authoritative map and the durable progress file (`none` = absent). -/
structure StoreState (ρ : Type) where
  results_cache : List (String × ρ)
  durableFile : Option (List (String × ρ))

/-- One iteration of `DataManager._writer_loop` (src/data_manager.py
lines 113-122) on a dequeued batch: merge it into the authoritative map,
then persist the entire map by writing a temp file and atomically
replacing the durable file with it. -/
def writerStep {ρ : Type} (s : StoreState ρ) (batch : List (String × ρ)) :
    StoreState ρ :=
  let cache := dictUpdate s.results_cache batch
  { results_cache := cache, durableFile := some cache }

/-- The writer loop run to quiescence after `stop()`: the loop condition
`not stop_event.is_set() or not queue.empty()` keeps it draining the
queued batches, one at a time and in order, until the queue is empty. -/
def writerDrain {ρ : Type} (s : StoreState ρ) (queue : List (List (String × ρ))) :
    StoreState ρ :=
  queue.foldl writerStep s

/-- src/data_manager.py, `DataManager._load_progress`, with the durable
file modelled as: `none` = file absent; `some none` = file present but
`json.load` raises (decode failure); `some (some m)` = file decodes to
the JSON object `m`. Returns the seeded `(results_cache,
processed_hashes)` pair, starting from the empty constructor values. -/
def load_progress {ρ : Type} (file : Option (Option (List (String × ρ)))) :
    List (String × ρ) × List String :=
  match file with
  | none => ([], [])
  | some none => ([], [])
  | some (some m) => (m, m.map Prod.fst)

/-- The batch-building loop of `DataManager.get_pending_batches`
(src/data_manager.py lines 92-101): append each pending group to the
current batch, emitting the batch whenever it reaches `batch_size`, and
emit the final partial batch if non-empty. -/
def buildBatches (bs : Nat) : List BookGroup → List BookGroup → List (List BookGroup)
  | cur, [] => if cur.isEmpty then [] else [cur]
  | cur, g :: rest =>
    let cur2 := cur ++ [g]
    if bs ≤ cur2.length then cur2 :: buildBatches bs [] rest
    else buildBatches bs cur2 rest

/-- src/data_manager.py, `DataManager.get_pending_batches`: batch up the
groups of `unique_groups` whose hash key is not in `processed_hashes`. -/
def get_pending_batches (unique_groups : List (String × BookGroup))
    (processed_hashes : List String) (batch_size : Nat) : List (List BookGroup) :=
  let pending := unique_groups.filter (fun p => !(processed_hashes.contains p.1))
  buildBatches batch_size [] (pending.map Prod.snd)

/-! ## autonomous_worker.py: the batch processor

Batch items are fingerprint strings. The external operation is the sole
source of non-determinism; `workerGo` models the iterations of the
`worker_task` retry loop in which the call returned a parsed, non-empty
mapping (`respF attempt`). Iterations that obtain no credential or raise
a classified error leave the remaining-item set and the retry counter
unchanged (they only sleep and loop), so a run is summarised by its
sequence of answered attempts. -/

/-- src/autonomous_worker.py, `find_data_for_fingerprint`: exact key
lookup first, else the first returned entry whose normalised key is a
substring of the fingerprint or contains the fingerprint title. -/
def findData {ρ : Type} (target_fp : String) (resp : List (String × ρ)) : Option ρ :=
  match dictGet resp target_fp with
  | some v => some v
  | none =>
    let target_title := pyLower (pyStrip (pySplitHead target_fp "|||"))
    (resp.find? (fun p =>
      let jc := pyLower (pyStrip p.1)
      substr jc (pyLower target_fp) || substr target_title jc)).map Prod.snd

/-- The outcome of one `worker_task` run: the result maps pushed to the
store in order, the items left unresolved when the retry budget ran out,
and the log lines emitted on that path. -/
structure WorkerResult (ρ : Type) where
  submissions : List (List (String × ρ))
  abandoned : List String
  logs : List String
deriving DecidableEq, Repr

/-- The retry loop of `worker_task` (src/autonomous_worker.py lines
136-247) on its answered attempts. `fuel` is `3 - retry_count`: when it
reaches 0 the `while retry_count < 3` guard fails and the function
returns, leaving the remaining items behind with no log line. On each
answered attempt the resolved items are submitted immediately (when any)
and the unresolved ones become the next, smaller batch. -/
def workerGo {ρ : Type} (respF : Nat → List (String × ρ)) :
    Nat → List String → Nat → WorkerResult ρ
  | _, batch, 0 => ⟨[], batch, []⟩
  | attempt, batch, fuel + 1 =>
    let resp := respF attempt
    let clean := batch.filterMap (fun fp => (findData fp resp).map (fun v => (fp, v)))
    let missing := batch.filter (fun fp => (findData fp resp).isNone)
    let subs := if clean.isEmpty then [] else [clean]
    if missing.isEmpty then ⟨subs, [], []⟩
    else
      let rest := workerGo respF (attempt + 1) missing fuel
      ⟨subs ++ rest.submissions, rest.abandoned, rest.logs⟩

/-- src/autonomous_worker.py, `worker_task`: empty batches return at
once; otherwise the retry loop runs with `retry_count = 0`. -/
def workerRun {ρ : Type} (respF : Nat → List (String × ρ)) (batch : List String) :
    WorkerResult ρ :=
  if batch.isEmpty then ⟨[], [], []⟩ else workerGo respF 0 batch 3

/-! ## Concrete states used by witnesses and counterexamples -/

/-- One credential line of `_load_keys`: add the key if it is new
(the body of the loop over parsed source lines). -/
def addKey (ks : List (String × APIKey)) (k : String) : List (String × APIKey) :=
  if (kfind ks k).isSome then ks else ks ++ [(k, freshKey k)]

/-- A one-credential pool whose only key is Dead. -/
def deadPool : KMState := KMState.mk [("d", APIKey.mk "d" .dead 3 7 2 1)] 0

def deadRec : APIKey := APIKey.mk "d" .dead 3 7 2 1

/-- A one-credential pool with an Active key whose `last_used` equals
the acquisition time used in the C3 counterexample. -/
def busyPool : KMState := KMState.mk [("a", APIKey.mk "a" .active 100 0 1 0)] 0

/-- A two-credential pool: an Active key followed by an expired-Cooldown
key. -/
def twoPool : KMState :=
  KMState.mk
    [("a", APIKey.mk "a" .active 0 0 0 0), ("b", APIKey.mk "b" .cooldown 0 0 0 0)] 0

/-- An existing credential record with live stats. -/
def oldRec : APIKey := APIKey.mk "old" .cooldown 9 99 5 2

def oldPool : KMState := KMState.mk [("old", oldRec)] 0

/-- A concrete worker run: five items, the first answered attempt
resolves three of them, later attempts resolve nothing. -/
def c5resp : Nat → List (String × Nat) :=
  fun i => if i = 0 then [("a1", 1), ("a2", 2), ("a3", 3)] else [("zz", 0)]

def c5batch : List String := ["a1", "a2", "a3", "b1", "b2"]

/-! ## Lemmas about the checkpoint store -/

theorem dictGet_dictInsert {ρ : Type} (m : List (String × ρ)) (k k2 : String) (v : ρ) :
    dictGet (dictInsert m k v) k2 = if k2 = k then some v else dictGet m k2 := by
  induction m with
  | nil =>
    by_cases h : k2 = k
    · subst h; simp [dictInsert, dictGet]
    · simp [dictInsert, dictGet, h, Ne.symm h]
  | cons p ps ih =>
    by_cases hp : p.1 = k
    · subst hp
      by_cases h : k2 = p.1
      · subst h; simp [dictInsert, dictGet]
      · simp [dictInsert, dictGet, h, Ne.symm h]
    · by_cases h : p.1 = k2
      · have hk : ¬ k2 = k := fun he => hp (h.trans he)
        simp [dictInsert, dictGet, hp, h, hk]
      · simp [dictInsert, dictGet, hp, h, ih]

theorem orO_assoc {ρ : Type} (a b c : Option ρ) :
    orO (orO a b) c = orO a (orO b c) := by
  cases a <;> simp [orO]

theorem dictGet_dictUpdate {ρ : Type} (entries : List (String × ρ))
    (m : List (String × ρ)) (k : String) :
    dictGet (dictUpdate m entries) k = orO (lastVal entries k) (dictGet m k) := by
  induction entries generalizing m with
  | nil => simp [dictUpdate, lastVal, orO]
  | cons p es ih =>
    have step : dictUpdate m (p :: es) = dictUpdate (dictInsert m p.1 p.2) es := by
      simp [dictUpdate]
    rw [step, ih, lastVal, orO_assoc]
    congr 1
    rw [dictGet_dictInsert]
    by_cases h : k = p.1
    · simp [h, orO]
    · have h2 : ¬ p.1 = k := fun he => h he.symm
      simp [h, h2, orO]

theorem writerDrain_cache {ρ : Type} (queue : List (List (String × ρ)))
    (s : StoreState ρ) :
    (writerDrain s queue).results_cache = dictUpdate s.results_cache queue.flatten := by
  induction queue generalizing s with
  | nil => simp [writerDrain, dictUpdate]
  | cons q qs ih =>
    have : writerDrain s (q :: qs) = writerDrain (writerStep s q) qs := by
      simp [writerDrain]
    rw [this, ih]
    simp [writerStep, dictUpdate, List.foldl_append]

theorem writerDrain_file {ρ : Type} (queue : List (List (String × ρ)))
    (s : StoreState ρ) (hq : queue ≠ []) :
    (writerDrain s queue).durableFile = some (writerDrain s queue).results_cache := by
  induction queue generalizing s with
  | nil => exact absurd rfl hq
  | cons q qs ih =>
    have hstep : writerDrain s (q :: qs) = writerDrain (writerStep s q) qs := by
      simp [writerDrain]
    rcases qs with _ | ⟨q2, qs2⟩
    · rw [hstep]
      simp [writerDrain, writerStep]
    · rw [hstep]
      exact ih (writerStep s q) (by simp)

theorem lastVal_flatten_some {ρ : Type} (queue : List (List (String × ρ)))
    (k : String) (v : ρ) (h : lastVal queue.flatten k = some v) : queue ≠ [] := by
  intro he
  rw [he] at h
  simp [lastVal] at h

/-- C1: after the writer has drained every map submitted before shutdown
(one queued map at a time, each merged into the authoritative in-memory
map and the entire map then persisted by temp-file-and-atomic-replace,
as `writerStep` transcribes), the durable file is the full authoritative
map, and it maps every submitted item id to its last-submitted value —
no item id submitted before shutdown is missing. -/
theorem c1_checkpoint_union_last_wins {ρ : Type} (s : StoreState ρ)
    (queue : List (List (String × ρ))) (k : String) (v : ρ)
    (h : lastVal queue.flatten k = some v) :
    ∃ m, (writerDrain s queue).durableFile = some m ∧
      m = (writerDrain s queue).results_cache ∧ dictGet m k = some v := by
  have hq := lastVal_flatten_some queue k v h
  refine ⟨(writerDrain s queue).results_cache, writerDrain_file queue s hq, rfl, ?_⟩
  rw [writerDrain_cache, dictGet_dictUpdate, h]
  rfl

/-- Witness for C1: a concrete queue where item `a` is submitted twice;
the drained durable file carries its last-submitted value 3. -/
theorem c1_checkpoint_union_last_wins_witness :
    lastVal (List.flatten [[("a", (1 : Nat)), ("b", 2)], [("a", 3)]]) "a" = some 3 ∧
    ∃ m, (writerDrain (StoreState.mk [] none)
            [[("a", (1 : Nat)), ("b", 2)], [("a", 3)]]).durableFile = some m ∧
      m = (writerDrain (StoreState.mk [] none)
            [[("a", (1 : Nat)), ("b", 2)], [("a", 3)]]).results_cache ∧
      dictGet m "a" = some 3 :=
  ⟨rfl, c1_checkpoint_union_last_wins (StoreState.mk [] none)
    [[("a", (1 : Nat)), ("b", 2)], [("a", 3)]] "a" 3 rfl⟩

/-- C9: `_load_progress` is total (never raises) on all three shapes of
the durable file; an absent file and a file on which decoding raises
both leave the authoritative map and the already-done set empty, and a
file decoding to a map seeds the authoritative map with its contents and
the already-done set with exactly its keys. -/
theorem c9_load_progress_tolerant {ρ : Type}
    (file : Option (Option (List (String × ρ)))) :
    ((file = none ∨ file = some none) → load_progress file = ([], [])) ∧
    (∀ m, file = some (some m) →
      load_progress file = (m, m.map Prod.fst) ∧
      ∀ k, k ∈ (load_progress file).2 ↔ ∃ v, (k, v) ∈ m) := by
  constructor
  · rintro (rfl | rfl) <;> rfl
  · rintro m rfl
    refine ⟨rfl, fun k => ?_⟩
    simp only [load_progress, List.mem_map]
    constructor
    · rintro ⟨⟨k1, v⟩, hm, rfl⟩
      exact ⟨v, hm⟩
    · rintro ⟨v, hv⟩
      exact ⟨(k, v), hv, rfl⟩

/-- Witness for C9: a decodable one-entry file seeds map and done set;
an absent file leaves both empty. -/
theorem c9_load_progress_tolerant_witness :
    load_progress (some (some [("a", (1 : Nat))])) = ([("a", 1)], ["a"]) ∧
    load_progress (none : Option (Option (List (String × Nat)))) = ([], []) := by
  have h1 := (c9_load_progress_tolerant (some (some [("a", (1 : Nat))]))).2
    [("a", 1)] rfl
  have h2 := (c9_load_progress_tolerant
    (none : Option (Option (List (String × Nat))))).1 (Or.inl rfl)
  exact ⟨by simpa using h1.1, h2⟩

/-- Every element of every batch built by the `get_pending_batches` loop
comes from the current partial batch or from the item list. -/
theorem mem_buildBatches (bs : Nat) (cur items : List BookGroup)
    (b : List BookGroup) (g : BookGroup) (hb : b ∈ buildBatches bs cur items)
    (hg : g ∈ b) : g ∈ cur ∨ g ∈ items := by
  induction items generalizing cur with
  | nil =>
    by_cases h : cur.isEmpty
    · simp [buildBatches, h] at hb
    · simp only [buildBatches, h, if_false] at hb
      rcases List.mem_singleton.mp hb with rfl
      exact Or.inl hg
  | cons x rest ih =>
    simp only [buildBatches] at hb
    by_cases h : bs ≤ (cur ++ [x]).length
    · rw [if_pos h] at hb
      rcases List.mem_cons.mp hb with rfl | hb2
      · rcases List.mem_append.mp hg with hc | hx
        · exact Or.inl hc
        · exact Or.inr (List.mem_cons.mpr (Or.inl (List.mem_singleton.mp hx)))
      · rcases ih [] hb2 with hc | hr
        · simp at hc
        · exact Or.inr (List.mem_cons.mpr (Or.inr hr))
    · rw [if_neg h] at hb
      rcases ih (cur ++ [x]) hb with hc | hr
      · rcases List.mem_append.mp hc with hc2 | hx
        · exact Or.inl hc2
        · exact Or.inr (List.mem_cons.mpr (Or.inl (List.mem_singleton.mp hx)))
      · exact Or.inr (List.mem_cons.mpr (Or.inr hr))

/-- C4: when every `unique_groups` entry is keyed by the content hash of
its group (the invariant `_load_data` establishes), no batch returned by
`get_pending_batches` contains an item whose content hash is in the
already-done set loaded from the checkpoint, so a re-run never
re-invokes the external operation for a checkpointed item. -/
theorem c4_pending_skips_processed (ug : List (String × BookGroup))
    (processed : List String) (bs : Nat) (h : String)
    (hug : ∀ p ∈ ug, p.1 = p.2.content_hash) (hp : h ∈ processed) :
    ∀ b ∈ get_pending_batches ug processed bs, ∀ g ∈ b, g.content_hash ≠ h := by
  intro b hb g hg he
  have hmem : g ∈ ((ug.filter (fun p => !(processed.contains p.1))).map Prod.snd) := by
    rcases mem_buildBatches bs [] _ b g hb hg with hc | hi
    · simp at hc
    · exact hi
  rcases List.mem_map.mp hmem with ⟨p, hpf, rfl⟩
  have hfil := List.mem_filter.mp hpf
  have hkey := hug p hfil.1
  have hmem2 : p.1 ∈ processed := by
    rw [hkey, he]
    exact hp
  have hnot : p.1 ∉ processed := by simpa using hfil.2
  exact hnot hmem2

set_option maxRecDepth 400000 in
/-- Witness for C4: two groups keyed by their real content hashes, the
first already checkpointed; no returned batch contains it. -/
theorem c4_pending_skips_processed_witness :
    (∀ p ∈ [("0e479488", BookGroup.mk "t1" "a1" "" "" none),
            ("b6b88abc", BookGroup.mk "t2" "a2" "" "" none)],
       p.1 = p.2.content_hash) ∧
    "0e479488" ∈ ["0e479488"] ∧
    ∀ b ∈ get_pending_batches
        [("0e479488", BookGroup.mk "t1" "a1" "" "" none),
         ("b6b88abc", BookGroup.mk "t2" "a2" "" "" none)] ["0e479488"] 1,
      ∀ g ∈ b, g.content_hash ≠ "0e479488" :=
  ⟨by decide, by decide,
   c4_pending_skips_processed _ _ 1 "0e479488" (by decide) (by decide)⟩

/-- C10: the item identifier `content_hash` is a pure function of the
normalised (stripped, lowercased) title, author and co-author fields: any
two groups whose three grouping fields agree up to leading/trailing
whitespace and letter case get the same hash — in particular the hash is
stable across threads and process restarts, which keeps checkpoint keys
valid for resume. -/
theorem c10_content_hash_normalized (g1 g2 : BookGroup)
    (ht : pyLower (pyStrip g1.title) = pyLower (pyStrip g2.title))
    (ha : pyLower (pyStrip g1.author) = pyLower (pyStrip g2.author))
    (hc : pyLower (pyStrip g1.co_author) = pyLower (pyStrip g2.co_author)) :
    g1.content_hash = g2.content_hash := by
  unfold BookGroup.content_hash generate_hash
  rw [ht, ha, hc]

/-- Witness for C10: two renderings of the same book differing only in
case and surrounding whitespace hash identically. -/
theorem c10_content_hash_normalized_witness :
    (pyLower (pyStrip "  Dune ") = pyLower (pyStrip "dune") ∧
     pyLower (pyStrip "Frank HERBERT") = pyLower (pyStrip " frank herbert") ∧
     pyLower (pyStrip "") = pyLower (pyStrip "")) ∧
    (BookGroup.mk "  Dune " "Frank HERBERT" "" "" none).content_hash =
      (BookGroup.mk "dune" " frank herbert" "" "" none).content_hash :=
  ⟨⟨by decide, by decide, by decide⟩,
   c10_content_hash_normalized _ _ (by decide) (by decide) (by decide)⟩

/-! ## Lemmas about the credential pool -/

theorem kfind_append (as bs : List (String × APIKey)) (k : String) :
    kfind (as ++ bs) k = orO (kfind as k) (kfind bs k) := by
  induction as with
  | nil => simp [kfind, orO]
  | cons p ps ih =>
    by_cases h : p.1 = k <;> simp [kfind, h, ih, orO]

theorem kfind_eq_none_iff (ks : List (String × APIKey)) (k : String) :
    kfind ks k = none ↔ k ∉ ks.map Prod.fst := by
  induction ks with
  | nil => simp [kfind]
  | cons p ps ih =>
    by_cases h : p.1 = k
    · simp [kfind, h]
    · have h1 : kfind (p :: ps) k = kfind ps k := by simp [kfind, h]
      rw [h1, ih]
      simp only [List.map_cons, List.mem_cons]
      push_neg
      constructor
      · intro hn
        exact ⟨fun he => h he.symm, hn⟩
      · intro hn
        exact hn.2

theorem kfind_map_upd (ks : List (String × APIKey)) (k k2 : String)
    (f : APIKey → APIKey) :
    kfind (ks.map (fun p => if p.1 = k then (p.1, f p.2) else p)) k2 =
      if k2 = k then (kfind ks k2).map f else kfind ks k2 := by
  induction ks with
  | nil =>
    by_cases h : k2 = k <;> simp [kfind, h]
  | cons p ps ih =>
    obtain ⟨q, ko⟩ := p
    by_cases hp : q = k
    · subst hp
      by_cases h : k2 = q
      · subst h
        simp [kfind, ih]
      · simp [kfind, h, Ne.symm h, ih]
    · by_cases h : q = k2
      · subst h
        simp [kfind, hp]
      · simp [kfind, hp, h, ih]

theorem kfind_kupd (ks : List (String × APIKey)) (k k2 : String) (f : APIKey → APIKey) :
    kfind (kupd ks k f) k2 =
      if k2 = k then (kfind ks k2).map f else kfind ks k2 := by
  simpa [kupd] using kfind_map_upd ks k k2 f

theorem kupd_map_fst (ks : List (String × APIKey)) (k : String) (f : APIKey → APIKey) :
    (kupd ks k f).map Prod.fst = ks.map Prod.fst := by
  induction ks with
  | nil => rfl
  | cons p ps ih =>
    simp only [kupd, List.map_cons] at ih ⊢
    by_cases h : p.1 = k
    · simp [h, ih]
    · simp [h, ih]

theorem load_keys_as_fold (mtime : ℚ) (raw : List String) (s : KMState)
    (h : ¬ mtime ≤ s.last_file_check) :
    (load_keys (some (mtime, raw)) s).keys =
      (parseKeyLines raw).foldl addKey s.keys := by
  simp only [load_keys, h, if_false]
  rfl

theorem addKey_preserves (ks : List (String × APIKey)) (l k : String) (ko : APIKey)
    (h : kfind ks k = some ko) : kfind (addKey ks l) k = some ko := by
  by_cases hl : (kfind ks l).isSome
  · simp [addKey, hl, h]
  · have hn : kfind ks l = none := Option.not_isSome_iff_eq_none.mp hl
    simp [addKey, hn, kfind_append, h, orO]

theorem foldl_addKey_preserves (lines : List String) (ks : List (String × APIKey))
    (k : String) (ko : APIKey) (h : kfind ks k = some ko) :
    kfind (lines.foldl addKey ks) k = some ko := by
  induction lines generalizing ks with
  | nil => exact h
  | cons l ls ih => exact ih (addKey ks l) (addKey_preserves ks l k ko h)

theorem foldl_addKey_new (lines : List String) (ks : List (String × APIKey))
    (k : String) (ko : APIKey) (h : kfind ks k = none)
    (h2 : kfind (lines.foldl addKey ks) k = some ko) : ko = freshKey k := by
  induction lines generalizing ks with
  | nil => rw [List.foldl_nil, h] at h2; cases h2
  | cons l ls ih =>
    rw [List.foldl_cons] at h2
    by_cases hl : (kfind ks l).isSome
    · rw [show addKey ks l = ks by simp [addKey, hl]] at h2
      exact ih ks h h2
    · have hn : kfind ks l = none := Option.not_isSome_iff_eq_none.mp hl
      by_cases hk : k = l
      · subst hk
        have hfound : kfind (addKey ks k) k = some (freshKey k) := by
          simp [addKey, hn, kfind_append, h, kfind, orO]
        have hpres := foldl_addKey_preserves ls (addKey ks k) k (freshKey k) hfound
        rw [hpres] at h2
        exact (Option.some.inj h2).symm
      · have hlk : ¬ l = k := fun he => hk he.symm
        have hnone : kfind (addKey ks l) k = none := by
          simp [addKey, hn, kfind_append, h, kfind, orO, hlk]
        exact ih (addKey ks l) hnone h2

/-- `_load_keys` never removes or resets an existing credential. -/
theorem load_keys_preserves (file : Option (ℚ × List String)) (s : KMState)
    (k : String) (ko : APIKey) (h : kfind s.keys k = some ko) :
    kfind (load_keys file s).keys k = some ko := by
  match file with
  | none => exact h
  | some (mtime, raw) =>
    by_cases hm : mtime ≤ s.last_file_check
    · simp only [load_keys, hm, if_true]
      exact h
    · rw [load_keys_as_fold mtime raw s hm]
      exact foldl_addKey_preserves _ _ _ _ h

/-- Every credential `_load_keys` adds is a fresh Active record. -/
theorem load_keys_new (file : Option (ℚ × List String)) (s : KMState)
    (k : String) (ko : APIKey) (h : kfind s.keys k = none)
    (h2 : kfind (load_keys file s).keys k = some ko) : ko = freshKey k := by
  match file with
  | none => rw [show load_keys none s = s from rfl, h] at h2; cases h2
  | some (mtime, raw) =>
    by_cases hm : mtime ≤ s.last_file_check
    · rw [show load_keys (some (mtime, raw)) s = s by simp [load_keys, hm], h] at h2
      cases h2
    · rw [load_keys_as_fold mtime raw s hm] at h2
      exact foldl_addKey_new _ _ _ _ h h2

theorem foldl_addKey_nodup (lines : List String) (ks : List (String × APIKey))
    (h : (ks.map Prod.fst).Nodup) :
    ((lines.foldl addKey ks).map Prod.fst).Nodup := by
  induction lines generalizing ks with
  | nil => exact h
  | cons l ls ih =>
    refine ih (addKey ks l) ?_
    by_cases hl : (kfind ks l).isSome
    · simpa [addKey, hl] using h
    · have hn : kfind ks l = none := Option.not_isSome_iff_eq_none.mp hl
      have hnot : l ∉ ks.map Prod.fst := (kfind_eq_none_iff ks l).mp hn
      have ha : addKey ks l = ks ++ [(l, freshKey l)] := by simp [addKey, hn]
      rw [ha, List.map_append]
      exact List.Nodup.append h (by simp) (by simpa using hnot)

theorem load_keys_nodup (file : Option (ℚ × List String)) (s : KMState)
    (h : (s.keys.map Prod.fst).Nodup) :
    ((load_keys file s).keys.map Prod.fst).Nodup := by
  match file with
  | none => exact h
  | some (mtime, raw) =>
    by_cases hm : mtime ≤ s.last_file_check
    · simpa [load_keys, hm] using h
    · rw [load_keys_as_fold mtime raw s hm]
      exact foldl_addKey_nodup _ _ h

theorem kfind_mem_of_some (ks : List (String × APIKey)) (k : String) (ko : APIKey)
    (h : kfind ks k = some ko) : k ∈ ks.map Prod.fst := by
  by_contra hn
  rw [(kfind_eq_none_iff ks k).mpr hn] at h
  cases h

/-- Whatever the selection scan returns has Active status (either it was
stored Active, or it was promoted to Active just before being returned). -/
theorem scan_ret_active (now : ℚ) (ks : List (String × APIKey)) (k : String)
    (ko : APIKey) (h : (scanKeys now ks).2 = some (k, ko)) : ko.status = .active := by
  induction ks with
  | nil => simp [scanKeys] at h
  | cons p rest ih =>
    obtain ⟨k0, ko0⟩ := p
    cases hs : ko0.status with
    | dead =>
      simp only [scanKeys, hs] at h
      exact ih h
    | cooldown =>
      by_cases hc : now > ko0.cooldown_until
      · simp only [scanKeys, hs, if_pos hc, Option.some.injEq, Prod.mk.injEq] at h
        rw [← h.2]
      · simp only [scanKeys, hs, if_neg hc] at h
        exact ih h
    | active =>
      simp only [scanKeys, hs, Option.some.injEq, Prod.mk.injEq] at h
      rw [← h.2]
      exact hs

/-- With distinct keys, the entry the scan returns comes from the scanned
dict: either it was stored Active and returned as-is, or it was stored
Cooldown with its expiry strictly passed and returned promoted. -/
theorem scan_src (now : ℚ) (ks : List (String × APIKey)) (k : String) (ko : APIKey)
    (hnd : (ks.map Prod.fst).Nodup) (h : (scanKeys now ks).2 = some (k, ko)) :
    ∃ ko0, kfind ks k = some ko0 ∧
      ((ko0.status = .active ∧ ko = ko0) ∨
       (ko0.status = .cooldown ∧ now > ko0.cooldown_until ∧
        ko = { ko0 with status := .active })) := by
  induction ks with
  | nil => simp [scanKeys] at h
  | cons p rest ih =>
    obtain ⟨k0, ko0⟩ := p
    have hnd2 : (rest.map Prod.fst).Nodup := (List.nodup_cons.mp (by simpa using hnd)).2
    have hk0 : k0 ∉ rest.map Prod.fst := (List.nodup_cons.mp (by simpa using hnd)).1
    cases hs : ko0.status with
    | dead =>
      simp only [scanKeys, hs] at h
      obtain ⟨ko1, hf, hcase⟩ := ih hnd2 h
      have hne : ¬ k0 = k := by
        intro he
        subst he
        exact hk0 (kfind_mem_of_some rest k0 ko1 hf)
      refine ⟨ko1, ?_, hcase⟩
      simp [kfind, hne, hf]
    | cooldown =>
      by_cases hc : now > ko0.cooldown_until
      · simp only [scanKeys, hs, if_pos hc, Option.some.injEq, Prod.mk.injEq] at h
        obtain ⟨rfl, h2⟩ := h
        exact ⟨ko0, by simp [kfind], Or.inr ⟨hs, hc, h2.symm⟩⟩
      · simp only [scanKeys, hs, if_neg hc] at h
        obtain ⟨ko1, hf, hcase⟩ := ih hnd2 h
        have hne : ¬ k0 = k := by
          intro he
          subst he
          exact hk0 (kfind_mem_of_some rest k0 ko1 hf)
        refine ⟨ko1, ?_, hcase⟩
        simp [kfind, hne, hf]
    | active =>
      simp only [scanKeys, hs, Option.some.injEq, Prod.mk.injEq] at h
      obtain ⟨rfl, h2⟩ := h
      exact ⟨ko0, by simp [kfind], Or.inl ⟨hs, h2.symm⟩⟩

/-- The scan leaves a Dead or unexpired-Cooldown entry untouched. -/
theorem scan_preserves_nonsel (now : ℚ) (ks : List (String × APIKey)) (k : String)
    (ko : APIKey) (h : kfind ks k = some ko) (hns : ¬ Selectable now ko) :
    kfind (scanKeys now ks).1 k = some ko := by
  induction ks with
  | nil => simp [kfind] at h
  | cons p rest ih =>
    obtain ⟨k0, ko0⟩ := p
    by_cases hk : k0 = k
    · subst hk
      have he : ko0 = ko := by simpa [kfind] using h
      subst he
      cases hs : ko0.status with
      | dead => simp [scanKeys, hs, kfind]
      | cooldown =>
        have hc : ¬ now > ko0.cooldown_until := fun hgt => hns (Or.inr ⟨hs, hgt⟩)
        simp [scanKeys, hs, hc, kfind]
      | active => exact absurd (Or.inl hs) hns
    · have h2 : kfind rest k = some ko := by simpa [kfind, hk] using h
      cases hs : ko0.status with
      | dead =>
        simpa [scanKeys, hs, kfind, hk] using ih h2
      | cooldown =>
        by_cases hc : now > ko0.cooldown_until
        · simp [scanKeys, hs, hc, kfind, hk, h2]
        · simpa [scanKeys, hs, hc, kfind, hk] using ih h2
      | active => simp [scanKeys, hs, kfind, hk, h2]

/-- With distinct keys, the scan never returns an entry that is Dead or
in unexpired Cooldown. -/
theorem scan_not_return (now : ℚ) (ks : List (String × APIKey)) (k : String)
    (ko : APIKey) (hnd : (ks.map Prod.fst).Nodup) (h : kfind ks k = some ko)
    (hns : ¬ Selectable now ko) :
    ∀ ko2, (scanKeys now ks).2 ≠ some (k, ko2) := by
  intro ko2 hr
  obtain ⟨ko0, hf, hcase⟩ := scan_src now ks k ko2 hnd hr
  rw [h] at hf
  obtain rfl := Option.some.inj hf
  rcases hcase with ⟨ha, _⟩ | ⟨hcd, hgt, _⟩
  · exact hns (Or.inl ha)
  · exact hns (Or.inr ⟨hcd, hgt⟩)

/-- If every entry before `k` is unselectable (Dead or unexpired
Cooldown) and the entry at `k` is an expired Cooldown one, the scan
reaches it, promotes it to Active, stores the promotion, and returns it. -/
theorem scan_promotes_first (now : ℚ) (pre post : List (String × APIKey))
    (k : String) (ko : APIKey) (hpre : ∀ p ∈ pre, ¬ Selectable now p.2)
    (hk : k ∉ pre.map Prod.fst) (hs : ko.status = .cooldown)
    (hc : now > ko.cooldown_until) :
    (scanKeys now (pre ++ (k, ko) :: post)).2 =
      some (k, { ko with status := .active }) ∧
    kfind (scanKeys now (pre ++ (k, ko) :: post)).1 k =
      some { ko with status := .active } := by
  induction pre with
  | nil => simp [scanKeys, hs, hc, kfind]
  | cons p pre2 ih =>
    obtain ⟨k0, ko0⟩ := p
    have hp0 : ¬ Selectable now ko0 := hpre (k0, ko0) (List.mem_cons_self _ _)
    have hpre2 : ∀ p ∈ pre2, ¬ Selectable now p.2 :=
      fun p hp => hpre p (List.mem_cons_of_mem _ hp)
    have hk2 : k ∉ pre2.map Prod.fst := fun hm => hk (by simp [hm])
    have hkne : ¬ k0 = k := fun he => hk (by simp [he])
    obtain ⟨ih1, ih2⟩ := ih hpre2 hk2
    cases hst : ko0.status with
    | dead =>
      constructor
      · simpa [scanKeys, hst] using ih1
      · simpa [scanKeys, hst, kfind, hkne] using ih2
    | cooldown =>
      have hc0 : ¬ now > ko0.cooldown_until := fun hgt => hp0 (Or.inr ⟨hst, hgt⟩)
      constructor
      · simpa [scanKeys, hst, hc0] using ih1
      · simpa [scanKeys, hst, hc0, kfind, hkne] using ih2
    | active => exact absurd (Or.inl hst) hp0

/-- Lookup after `report_failure`: the record of the reported key passes
through `failUpdate`, every other record is untouched (also when the
reported key is absent and the call is a no-op). -/
theorem report_failure_kfind (s : KMState) (k k2 e : String) (now : ℚ) :
    kfind (report_failure s k e now).keys k2 =
      if k2 = k then (kfind s.keys k2).map (failUpdate e now)
      else kfind s.keys k2 := by
  unfold report_failure
  cases hf : kfind s.keys k with
  | none =>
    by_cases h : k2 = k
    · subst h
      simp [hf]
    · simp [h]
  | some ko => simp [kfind_kupd]

/-- Lookup after `report_success`: the record of the reported key passes
through `succUpdate`, every other record is untouched. -/
theorem report_success_kfind (s : KMState) (k k2 : String) (now : ℚ) :
    kfind (report_success s k now).keys k2 =
      if k2 = k then (kfind s.keys k2).map (succUpdate now)
      else kfind s.keys k2 := by
  unfold report_success
  cases hf : kfind s.keys k with
  | none =>
    by_cases h : k2 = k
    · subst h
      simp [hf]
    · simp [h]
  | some ko => simp [kfind_kupd]

theorem failUpdate_errors (e : String) (now : ℚ) (ko : APIKey) :
    (failUpdate e now ko).errors = ko.errors + 1 := by
  unfold failUpdate
  by_cases h1 : (substr "429" e || substr "Quota" e) = true
  · simp [h1]
  · rw [Bool.not_eq_true] at h1
    by_cases h2 : (substr "400" e || substr "API_KEY_INVALID" e) = true
    · simp [h1, h2]
    · rw [Bool.not_eq_true] at h2
      simp [h1, h2]

theorem failUpdate_resourceExhausted (e : String) (now : ℚ) (ko : APIKey)
    (h : classify e = .resourceExhausted) :
    (failUpdate e now ko).status = .cooldown ∧
    (failUpdate e now ko).cooldown_until = now + 60 * 60 * 24 := by
  unfold classify at h
  unfold failUpdate
  by_cases h1 : (substr "429" e || substr "Quota" e) = true
  · simp [h1]
  · rw [Bool.not_eq_true] at h1
    by_cases h2 : (substr "400" e || substr "API_KEY_INVALID" e) = true
    · simp [h1, h2] at h
    · rw [Bool.not_eq_true] at h2
      simp [h1, h2] at h

theorem failUpdate_invalidCredential (e : String) (now : ℚ) (ko : APIKey)
    (h : classify e = .invalidCredential) :
    (failUpdate e now ko).status = .dead := by
  unfold classify at h
  unfold failUpdate
  by_cases h1 : (substr "429" e || substr "Quota" e) = true
  · simp [h1] at h
  · rw [Bool.not_eq_true] at h1
    by_cases h2 : (substr "400" e || substr "API_KEY_INVALID" e) = true
    · simp [h1, h2]
    · rw [Bool.not_eq_true] at h2
      simp [h1, h2] at h

theorem failUpdate_generic (e : String) (now : ℚ) (ko : APIKey)
    (h : classify e = .generic) :
    failUpdate e now ko = { ko with errors := ko.errors + 1 } := by
  unfold classify at h
  unfold failUpdate
  by_cases h1 : (substr "429" e || substr "Quota" e) = true
  · simp [h1] at h
  · rw [Bool.not_eq_true] at h1
    by_cases h2 : (substr "400" e || substr "API_KEY_INVALID" e) = true
    · simp [h1, h2] at h
    · rw [Bool.not_eq_true] at h2
      simp [h1, h2]

/-- C6: `report_failure` on a credential present in the pool increments
its consecutive-error counter; a ResourceExhausted-classified error puts
it in Cooldown until `now + 24h`; an InvalidCredential-classified error
marks it Dead; any other error string is recorded (counter only) and
changes no status field. -/
theorem c6_report_failure_transitions (s : KMState) (k e : String) (now : ℚ)
    (ko : APIKey) (h : kfind s.keys k = some ko) :
    ∃ ko2, kfind (report_failure s k e now).keys k = some ko2 ∧
      ko2.errors = ko.errors + 1 ∧
      (classify e = .resourceExhausted →
        ko2.status = .cooldown ∧ ko2.cooldown_until = now + 60 * 60 * 24) ∧
      (classify e = .invalidCredential → ko2.status = .dead) ∧
      (classify e = .generic → ko2.status = ko.status ∧
        ko2.cooldown_until = ko.cooldown_until ∧ ko2.last_used = ko.last_used ∧
        ko2.total_requests = ko.total_requests) := by
  refine ⟨failUpdate e now ko, ?_, failUpdate_errors e now ko, ?_, ?_, ?_⟩
  · rw [report_failure_kfind, if_pos rfl, h]
    rfl
  · exact failUpdate_resourceExhausted e now ko
  · exact failUpdate_invalidCredential e now ko
  · intro hg
    rw [failUpdate_generic e now ko hg]
    exact ⟨rfl, rfl, rfl, rfl⟩

/-- Witness for C6: a pool with one Active key; a quota error cools it
down for 24 hours. -/
theorem c6_report_failure_transitions_witness :
    kfind (KMState.mk [("k", freshKey "k")] 0).keys "k" = some (freshKey "k") ∧
    ∃ ko2,
      kfind (report_failure (KMState.mk [("k", freshKey "k")] 0) "k"
        "429 exhausted" 100).keys "k" = some ko2 ∧
      ko2.errors = (freshKey "k").errors + 1 ∧
      (classify "429 exhausted" = .resourceExhausted →
        ko2.status = .cooldown ∧ ko2.cooldown_until = 100 + 60 * 60 * 24) ∧
      (classify "429 exhausted" = .invalidCredential → ko2.status = .dead) ∧
      (classify "429 exhausted" = .generic → ko2.status = (freshKey "k").status ∧
        ko2.cooldown_until = (freshKey "k").cooldown_until ∧
        ko2.last_used = (freshKey "k").last_used ∧
        ko2.total_requests = (freshKey "k").total_requests) :=
  ⟨rfl, c6_report_failure_transitions (KMState.mk [("k", freshKey "k")] 0)
    "k" "429 exhausted" 100 (freshKey "k") rfl⟩

theorem report_failure_map_fst (s : KMState) (k e : String) (now : ℚ) :
    (report_failure s k e now).keys.map Prod.fst = s.keys.map Prod.fst := by
  unfold report_failure
  cases kfind s.keys k with
  | none => rfl
  | some ko => simp [kupd_map_fst]

/-- Acquire leaves a Dead or unexpired-Cooldown entry untouched and
never returns it (distinct keys). -/
theorem gak_nonsel (file : Option (ℚ × List String)) (s : KMState) (now : ℚ)
    (k : String) (ko : APIKey) (hnd : (s.keys.map Prod.fst).Nodup)
    (h : kfind s.keys k = some ko) (hns : ¬ Selectable now ko) :
    kfind (get_available_key file s now).1.keys k = some ko ∧
    ∀ ko2, (get_available_key file s now).2 ≠ some (k, ko2) := by
  have h1 := load_keys_preserves file s k ko h
  have hnd1 := load_keys_nodup file s hnd
  constructor
  · show kfind (scanKeys now (load_keys file s).keys).1 k = some ko
    exact scan_preserves_nonsel now _ k ko h1 hns
  · intro ko2
    show (scanKeys now (load_keys file s).keys).2 ≠ some (k, ko2)
    exact scan_not_return now _ k ko hnd1 h1 hns ko2

/-- Counterexample to C2 as stated: `report_failure` with a
ResourceExhausted-classified error on a Dead credential changes its
status to Cooldown — Dead is not absorbing under every pool operation. -/
theorem c2_dead_not_absorbing_counterexample :
    kfind deadPool.keys "d" = some deadRec ∧ deadRec.status = .dead ∧
    (kfind (report_failure deadPool "d" "Quota" 100).keys "d").map APIKey.status
      = some .cooldown :=
  ⟨rfl, rfl, rfl⟩

/-- C2 (amended): once a credential is Dead, `reportSuccess`, `refresh`
and `acquire` never change its status, `refresh` never removes or resets
its record, and `acquire` never returns it while it is Dead; the one
exception is `reportFailure` with a ResourceExhausted-classified error,
which moves even a Dead credential to Cooldown (after which it can be
promoted and returned again); `reportFailure` with any other error class
leaves it Dead. -/
theorem c2_dead_stability_amended (s : KMState) (k : String) (ko : APIKey)
    (hnd : (s.keys.map Prod.fst).Nodup) (hd : kfind s.keys k = some ko)
    (hdead : ko.status = .dead) :
    (∀ k2 now, (kfind (report_success s k2 now).keys k).map APIKey.status
        = some .dead) ∧
    (∀ k2 e now, classify e ≠ .resourceExhausted →
      (kfind (report_failure s k2 e now).keys k).map APIKey.status = some .dead) ∧
    (∀ file, kfind (load_keys file s).keys k = some ko) ∧
    (∀ file now, kfind (get_available_key file s now).1.keys k = some ko ∧
      ∀ ko2, (get_available_key file s now).2 ≠ some (k, ko2)) ∧
    (∀ e now, classify e = .resourceExhausted →
      (kfind (report_failure s k e now).keys k).map APIKey.status
        = some .cooldown) := by
  have hns : ∀ now : ℚ, ¬ Selectable now ko := by
    intro now hsel
    rcases hsel with ha | ⟨hc, _⟩
    · rw [hdead] at ha
      cases ha
    · rw [hdead] at hc
      cases hc
  refine ⟨?_, ?_, ?_, ?_, ?_⟩
  · intro k2 now
    rw [report_success_kfind]
    by_cases h : k = k2
    · rw [if_pos h, hd]
      simpa [succUpdate] using hdead
    · rw [if_neg h, hd]
      simpa using hdead
  · intro k2 e now hcl
    rw [report_failure_kfind]
    by_cases h : k = k2
    · rw [if_pos h, hd]
      cases hc : classify e with
      | resourceExhausted => exact absurd hc hcl
      | invalidCredential =>
        simpa using failUpdate_invalidCredential e now ko hc
      | generic =>
        simp [failUpdate_generic e now ko hc, hdead]
    · rw [if_neg h, hd]
      simpa using hdead
  · intro file
    exact load_keys_preserves file s k ko hd
  · intro file now
    exact gak_nonsel file s now k ko hnd hd (hns now)
  · intro e now hc
    rw [report_failure_kfind, if_pos rfl, hd]
    simpa using (failUpdate_resourceExhausted e now ko hc).1

/-- Witness for C2 (amended), on the concrete Dead pool: success
reports, generic and invalid failures, refresh and acquire all leave the
key Dead and unreturned; a quota failure cools it down. -/
theorem c2_dead_stability_amended_witness :
    ((deadPool.keys.map Prod.fst).Nodup ∧ kfind deadPool.keys "d" = some deadRec ∧
      deadRec.status = .dead) ∧
    (kfind (report_success deadPool "d" 50).keys "d").map APIKey.status
      = some .dead ∧
    (kfind (report_failure deadPool "d" "boom" 50).keys "d").map APIKey.status
      = some .dead ∧
    kfind (load_keys (some (5, ["d", "e"])) deadPool).keys "d" = some deadRec ∧
    kfind (get_available_key none deadPool 50).1.keys "d" = some deadRec ∧
    (kfind (report_failure deadPool "d" "Quota" 50).keys "d").map APIKey.status
      = some .cooldown :=
  ⟨⟨by decide, rfl, rfl⟩,
   (c2_dead_stability_amended deadPool "d" deadRec (by decide) rfl rfl).1 "d" 50,
   (c2_dead_stability_amended deadPool "d" deadRec (by decide) rfl rfl).2.1 "d"
     "boom" 50 (by decide),
   (c2_dead_stability_amended deadPool "d" deadRec (by decide) rfl rfl).2.2.1
     (some (5, ["d", "e"])),
   ((c2_dead_stability_amended deadPool "d" deadRec (by decide) rfl rfl).2.2.2.1
     none 50).1,
   (c2_dead_stability_amended deadPool "d" deadRec (by decide) rfl rfl).2.2.2.2
     "Quota" 50 (by decide)⟩

/-- Counterexample to C3 as stated: `get_available_key` returns a key
whose last granted use is 0 seconds ago — it never consults `last_used`,
so the returned credential need not satisfy the minimum inter-request
delay. -/
theorem c3_acquire_ignores_delay_counterexample :
    (get_available_key none busyPool 100).2 =
      some ("a", APIKey.mk "a" .active 100 0 1 0) ∧
    ¬ RATE_LIMIT_DELAY ≤ (100 : ℚ) - (APIKey.mk "a" .active 100 0 1 0).last_used := by
  refine ⟨rfl, ?_⟩
  show ¬ RATE_LIMIT_DELAY ≤ (100 : ℚ) - 100
  norm_num [RATE_LIMIT_DELAY]

/-- C3 (amended): every credential `acquire` returns is in Active status
at the moment it is returned; the minimum inter-request delay is not
checked by `acquire` but enforced by the calling worker, which sleeps
until `RATE_LIMIT_DELAY` has passed since the `last_used` field of the
key record before using it — a per-caller guarantee that does not stop
two concurrent callers from receiving the same credential. -/
theorem c3_acquire_active_caller_throttles (file : Option (ℚ × List String))
    (s : KMState) (now : ℚ) (k : String) (ko : APIKey)
    (h : (get_available_key file s now).2 = some (k, ko)) :
    ko.status = .active ∧
    ∀ tnow last_used : ℚ, RATE_LIMIT_DELAY ≤ useTime tnow last_used - last_used := by
  constructor
  · exact scan_ret_active now (load_keys file s).keys k ko h
  · intro tnow lu
    unfold useTime throttleWait
    by_cases hc : tnow - lu < RATE_LIMIT_DELAY
    · rw [if_pos hc]
      linarith
    · rw [if_neg hc]
      push_neg at hc
      linarith

/-- Witness for C3 (amended): a fresh Active key is returned Active, and
the worker-side sleep bound holds at a concrete time pair. -/
theorem c3_acquire_active_caller_throttles_witness :
    (get_available_key none (KMState.mk [("a", freshKey "a")] 0) 10).2
      = some ("a", freshKey "a") ∧
    (freshKey "a").status = .active ∧
    RATE_LIMIT_DELAY ≤ useTime 3 1 - 1 :=
  ⟨rfl,
   (c3_acquire_active_caller_throttles none (KMState.mk [("a", freshKey "a")] 0)
     10 "a" (freshKey "a") rfl).1,
   (c3_acquire_active_caller_throttles none (KMState.mk [("a", freshKey "a")] 0)
     10 "a" (freshKey "a") rfl).2 3 1⟩

/-- Counterexample to C7 as stated: key `b` is in Cooldown with its
expiry long passed, yet an `acquire` call returns the earlier Active key
`a` and leaves `b` in Cooldown — the scan stops at the first usable key,
so an expired-Cooldown credential is not promoted by every acquire. -/
theorem c7_no_unconditional_promotion_counterexample :
    (APIKey.mk "b" .cooldown 0 0 0 0).cooldown_until < 100 ∧
    (get_available_key none twoPool 100).2 =
      some ("a", APIKey.mk "a" .active 0 0 0 0) ∧
    (kfind (get_available_key none twoPool 100).1.keys "b").map APIKey.status
      = some .cooldown := by
  refine ⟨?_, rfl, rfl⟩
  show (0 : ℚ) < 100
  norm_num

/-- C7 (amended): after `report_failure` with a ResourceExhausted-class
error on a pool key, the key is in Cooldown with expiry `now + 24h`
immediately; as long as the expiry has not strictly passed, no acquire
call returns it or changes its record; once the expiry has strictly
passed, an acquire promotes it to Active, stores the promotion and
returns it provided the scan reaches it — that is, provided every
earlier entry is Dead or in unexpired Cooldown. -/
theorem c7_cooldown_until_expiry_amended (s : KMState) (k e : String) (now : ℚ)
    (ko : APIKey) (hnd : (s.keys.map Prod.fst).Nodup)
    (hd : kfind s.keys k = some ko) (h429 : classify e = .resourceExhausted) :
    ∃ ko1, kfind (report_failure s k e now).keys k = some ko1 ∧
      ko1.status = .cooldown ∧ ko1.cooldown_until = now + 60 * 60 * 24 ∧
      (∀ file now2, ¬ now2 > now + 60 * 60 * 24 →
        kfind (get_available_key file (report_failure s k e now) now2).1.keys k
          = some ko1 ∧
        ∀ ko2, (get_available_key file (report_failure s k e now) now2).2
          ≠ some (k, ko2)) ∧
      (∀ now2 pre post, now2 > now + 60 * 60 * 24 →
        (∀ p ∈ pre, ¬ Selectable now2 p.2) → k ∉ pre.map Prod.fst →
        (scanKeys now2 (pre ++ (k, ko1) :: post)).2 =
          some (k, { ko1 with status := .active }) ∧
        kfind (scanKeys now2 (pre ++ (k, ko1) :: post)).1 k =
          some { ko1 with status := .active }) := by
  have hf : kfind (report_failure s k e now).keys k = some (failUpdate e now ko) := by
    rw [report_failure_kfind, if_pos rfl, hd]
    rfl
  obtain ⟨hst, hcu⟩ := failUpdate_resourceExhausted e now ko h429
  refine ⟨failUpdate e now ko, hf, hst, hcu, ?_, ?_⟩
  · intro file now2 hlt
    have hnd1 : ((report_failure s k e now).keys.map Prod.fst).Nodup := by
      rw [report_failure_map_fst]
      exact hnd
    have hns : ¬ Selectable now2 (failUpdate e now ko) := by
      intro hsel
      rcases hsel with ha | ⟨_, hgt⟩
      · rw [hst] at ha
        cases ha
      · rw [hcu] at hgt
        exact hlt hgt
    exact gak_nonsel file (report_failure s k e now) now2 k (failUpdate e now ko)
      hnd1 hf hns
  · intro now2 pre post hgt hpre hknot
    exact scan_promotes_first now2 pre post k (failUpdate e now ko) hpre hknot hst
      (by rw [hcu]; exact hgt)

/-- Witness for C7 (amended): a fresh key quota-fails at time 0, stays
unreturned at time 86400 (not strictly past expiry), and at 86401 is
promoted and returned when it heads the scan. -/
theorem c7_cooldown_until_expiry_amended_witness :
    (((KMState.mk [("k", freshKey "k")] 0).keys.map Prod.fst).Nodup ∧
      kfind (KMState.mk [("k", freshKey "k")] 0).keys "k" = some (freshKey "k") ∧
      classify "429" = .resourceExhausted) ∧
    (∃ ko1, kfind (report_failure (KMState.mk [("k", freshKey "k")] 0) "k"
        "429" 0).keys "k" = some ko1 ∧
      ko1.status = .cooldown ∧ ko1.cooldown_until = 0 + 60 * 60 * 24 ∧
      (∀ file now2, ¬ now2 > 0 + 60 * 60 * 24 →
        kfind (get_available_key file (report_failure
          (KMState.mk [("k", freshKey "k")] 0) "k" "429" 0) now2).1.keys "k"
          = some ko1 ∧
        ∀ ko2, (get_available_key file (report_failure
          (KMState.mk [("k", freshKey "k")] 0) "k" "429" 0) now2).2
          ≠ some ("k", ko2)) ∧
      (∀ now2 pre post, now2 > 0 + 60 * 60 * 24 →
        (∀ p ∈ pre, ¬ Selectable now2 p.2) → "k" ∉ pre.map Prod.fst →
        (scanKeys now2 (pre ++ ("k", ko1) :: post)).2 =
          some ("k", { ko1 with status := .active }) ∧
        kfind (scanKeys now2 (pre ++ ("k", ko1) :: post)).1 "k" =
          some { ko1 with status := .active })) :=
  ⟨⟨by decide, rfl, by decide⟩,
   c7_cooldown_until_expiry_amended (KMState.mk [("k", freshKey "k")] 0) "k"
     "429" 0 (freshKey "k") (by decide) rfl (by decide)⟩

/-- C8: `refresh` (`_load_keys`) only adds newly discovered credentials,
each as a fresh Active record with zero counters; it never removes an
existing credential and never resets any existing record — including a
credential that no longer appears in the source file. -/
theorem c8_refresh_append_only (file : Option (ℚ × List String)) (s : KMState)
    (k : String) :
    (∀ ko, kfind s.keys k = some ko → kfind (load_keys file s).keys k = some ko) ∧
    (∀ ko, kfind s.keys k = none → kfind (load_keys file s).keys k = some ko →
      ko = freshKey k ∧ ko.status = .active ∧ ko.total_requests = 0 ∧
      ko.errors = 0 ∧ ko.last_used = 0 ∧ ko.cooldown_until = 0) := by
  constructor
  · intro ko h
    exact load_keys_preserves file s k ko h
  · intro ko h h2
    have he := load_keys_new file s k ko h h2
    refine ⟨he, ?_, ?_, ?_, ?_, ?_⟩ <;> rw [he] <;> rfl

/-- Witness for C8: a source file update in which the existing
credential has disappeared and a new one appears; the old record
survives untouched and the new one is created fresh and Active. -/
theorem c8_refresh_append_only_witness :
    kfind oldPool.keys "old" = some oldRec ∧
    kfind oldPool.keys "new" = none ∧
    kfind (load_keys (some (5, ["new"])) oldPool).keys "old" = some oldRec ∧
    (freshKey "new" = freshKey "new" ∧ (freshKey "new").status = .active ∧
      (freshKey "new").total_requests = 0 ∧ (freshKey "new").errors = 0 ∧
      (freshKey "new").last_used = 0 ∧ (freshKey "new").cooldown_until = 0) :=
  ⟨rfl, rfl,
   (c8_refresh_append_only (some (5, ["new"])) oldPool "old").1 oldRec rfl,
   (c8_refresh_append_only (some (5, ["new"])) oldPool "new").2
     (freshKey "new") rfl rfl⟩

/-! ## Lemmas about the worker retry loop -/

theorem mem_clean {ρ : Type} (resp : List (String × ρ)) (batch : List String)
    (k : String) (v : ρ)
    (h : (k, v) ∈ batch.filterMap
      (fun fp => (findData fp resp).map (fun v => (fp, v)))) :
    k ∈ batch ∧ findData k resp = some v := by
  obtain ⟨fp, hfp, hmap⟩ := List.mem_filterMap.mp h
  cases hfd : findData fp resp with
  | none => rw [hfd] at hmap; cases hmap
  | some v2 =>
    rw [hfd] at hmap
    simp only [Option.map_some', Option.some.injEq, Prod.mk.injEq] at hmap
    obtain ⟨rfl, rfl⟩ := hmap
    exact ⟨hfp, hfd⟩

/-- Items left abandoned by the retry loop were in the starting batch
and were unresolved by the answered attempt of every round the budget
allowed. -/
theorem workerGo_abandoned {ρ : Type} (respF : Nat → List (String × ρ))
    (fuel : Nat) : ∀ (attempt : Nat) (batch : List String),
    ∀ fp ∈ (workerGo respF attempt batch fuel).abandoned,
      fp ∈ batch ∧ ∀ j, j < fuel → findData fp (respF (attempt + j)) = none := by
  induction fuel with
  | zero =>
    intro attempt batch fp hfp
    exact ⟨hfp, fun j hj => absurd hj (Nat.not_lt_zero j)⟩
  | succ fuel ih =>
    intro attempt batch fp hfp
    simp only [workerGo] at hfp
    by_cases hm : (batch.filter (fun fp => (findData fp (respF attempt)).isNone)).isEmpty
    · rw [if_pos hm] at hfp
      simp at hfp
    · rw [if_neg hm] at hfp
      simp only at hfp
      obtain ⟨hmem, hall⟩ := ih (attempt + 1) _ fp hfp
      have hfil := List.mem_filter.mp hmem
      have hfp0 : findData fp (respF attempt) = none :=
        Option.isNone_iff_eq_none.mp hfil.2
      refine ⟨hfil.1, ?_⟩
      intro j hj
      cases j with
      | zero => simpa using hfp0
      | succ j2 =>
        have hres := hall j2 (Nat.lt_of_succ_lt_succ hj)
        rw [show attempt + (j2 + 1) = attempt + 1 + j2 by omega]
        exact hres

/-- Every pair inside a submitted result map was resolved from the
answered attempt of some round, for an item of the starting batch. -/
theorem workerGo_submitted {ρ : Type} (respF : Nat → List (String × ρ))
    (fuel : Nat) : ∀ (attempt : Nat) (batch : List String),
    ∀ mp ∈ (workerGo respF attempt batch fuel).submissions, ∀ k v, (k, v) ∈ mp →
      k ∈ batch ∧ ∃ j, j < fuel ∧ findData k (respF (attempt + j)) = some v := by
  induction fuel with
  | zero =>
    intro attempt batch mp hmp
    simp [workerGo] at hmp
  | succ fuel ih =>
    intro attempt batch mp hmp k v hkv
    simp only [workerGo] at hmp
    by_cases hm : (batch.filter (fun fp => (findData fp (respF attempt)).isNone)).isEmpty
    · rw [if_pos hm] at hmp
      simp only at hmp
      by_cases hcl : (batch.filterMap
          (fun fp => (findData fp (respF attempt)).map (fun v => (fp, v)))).isEmpty
      · rw [if_pos hcl] at hmp
        simp at hmp
      · rw [if_neg hcl] at hmp
        rcases List.mem_singleton.mp hmp with rfl
        obtain ⟨hkb, hfd⟩ := mem_clean (respF attempt) batch k v hkv
        exact ⟨hkb, 0, Nat.succ_pos fuel, by simpa using hfd⟩
    · rw [if_neg hm] at hmp
      simp only at hmp
      rcases List.mem_append.mp hmp with hl | hr
      · have hmp2 : mp = batch.filterMap
            (fun fp => (findData fp (respF attempt)).map (fun v => (fp, v))) := by
          by_cases hcl : (batch.filterMap
              (fun fp => (findData fp (respF attempt)).map (fun v => (fp, v)))).isEmpty
          · rw [if_pos hcl] at hl
            simp at hl
          · rw [if_neg hcl] at hl
            exact List.mem_singleton.mp hl
        subst hmp2
        obtain ⟨hkb, hfd⟩ := mem_clean (respF attempt) batch k v hkv
        exact ⟨hkb, 0, Nat.succ_pos fuel, by simpa using hfd⟩
      · obtain ⟨hkb, j, hj, hfd⟩ := ih (attempt + 1) _ mp hr k v hkv
        have hfil := List.mem_filter.mp hkb
        refine ⟨hfil.1, j + 1, Nat.succ_lt_succ hj, ?_⟩
        rw [show attempt + (j + 1) = attempt + 1 + j by omega]
        exact hfd

/-- The retry loop emits no log line on the answered-attempt path — in
particular none when the budget runs out and items are left behind. -/
theorem workerGo_logs {ρ : Type} (respF : Nat → List (String × ρ)) (fuel : Nat) :
    ∀ (attempt : Nat) (batch : List String),
    (workerGo respF attempt batch fuel).logs = [] := by
  induction fuel with
  | zero => intro attempt batch; rfl
  | succ fuel ih =>
    intro attempt batch
    simp only [workerGo]
    by_cases hm : (batch.filter (fun fp => (findData fp (respF attempt)).isNone)).isEmpty
    · rw [if_pos hm]
    · rw [if_neg hm]
      simp only
      exact ih (attempt + 1) _

/-- Counterexample to C5 as stated: after the retry budget is exhausted
the two unresolved items are abandoned, but the worker emits no log line
at all on this path — they are not "logged as abandoned". The resolved
three were submitted immediately and the abandoned two never reach a
submission. -/
theorem c5_no_abandonment_log_counterexample :
    (workerRun c5resp c5batch).abandoned = ["b1", "b2"] ∧
    (workerRun c5resp c5batch).submissions = [[("a1", 1), ("a2", 2), ("a3", 3)]] ∧
    (workerRun c5resp c5batch).logs = [] :=
  ⟨rfl, rfl, rfl⟩

/-- C5 (amended): on a run whose answered attempts are `respF`, the
worker submits the result of each resolved item immediately (an item
resolved by the first answered attempt appears in a submitted map); only
unresolved items are carried into later attempts; after the budget of 3
batch-level retries the still-unresolved items are abandoned — silently,
with no log line — and never appear in any submitted map, so they are
never written to the checkpoint. -/
theorem c5_resolution_amended {ρ : Type} (respF : Nat → List (String × ρ))
    (batch : List String) :
    (∀ fp ∈ (workerRun respF batch).abandoned,
      fp ∈ batch ∧ ∀ j, j < 3 → findData fp (respF j) = none) ∧
    (∀ mp ∈ (workerRun respF batch).submissions, ∀ k v, (k, v) ∈ mp →
      k ∈ batch ∧ ∃ j, j < 3 ∧ findData k (respF j) = some v) ∧
    (∀ fp ∈ (workerRun respF batch).abandoned,
      ∀ mp ∈ (workerRun respF batch).submissions, ∀ v, (fp, v) ∉ mp) ∧
    (∀ fp ∈ batch, ∀ v, findData fp (respF 0) = some v →
      ∃ mp ∈ (workerRun respF batch).submissions, (fp, v) ∈ mp) ∧
    (workerRun respF batch).logs = [] := by
  by_cases hb : batch.isEmpty
  · rw [List.isEmpty_iff] at hb
    subst hb
    refine ⟨?_, ?_, ?_, ?_, rfl⟩ <;> simp [workerRun]
  · have hrun : workerRun respF batch = workerGo respF 0 batch 3 := by
      simp [workerRun, hb]
    rw [hrun]
    have hab := workerGo_abandoned respF 3 0 batch
    have hsub := workerGo_submitted respF 3 0 batch
    refine ⟨?_, ?_, ?_, ?_, workerGo_logs respF 3 0 batch⟩
    · intro fp hfp
      obtain ⟨h1, h2⟩ := hab fp hfp
      exact ⟨h1, fun j hj => by simpa using h2 j hj⟩
    · intro mp hmp k v hkv
      obtain ⟨h1, j, hj, hfd⟩ := hsub mp hmp k v hkv
      exact ⟨h1, j, hj, by simpa using hfd⟩
    · intro fp hfp mp hmp v hkv
      obtain ⟨_, h2⟩ := hab fp hfp
      obtain ⟨_, j, hj, hfd⟩ := hsub mp hmp fp v hkv
      have h3 := h2 j hj
      rw [Nat.zero_add] at h3 hfd
      rw [h3] at hfd
      cases hfd
    · intro fp hfp v hfd
      simp only [workerGo]
      have hclean : (fp, v) ∈ batch.filterMap
          (fun fp => (findData fp (respF 0)).map (fun v => (fp, v))) :=
        List.mem_filterMap.mpr ⟨fp, hfp, by rw [hfd]; rfl⟩
      have hclne : ¬ (batch.filterMap
          (fun fp => (findData fp (respF 0)).map (fun v => (fp, v)))).isEmpty := by
        intro hie
        rw [List.isEmpty_iff] at hie
        rw [hie] at hclean
        cases hclean
      by_cases hm : (batch.filter (fun fp => (findData fp (respF 0)).isNone)).isEmpty
      · rw [if_pos hm]
        simp only
        exact ⟨_, by rw [if_neg hclne]; exact List.mem_singleton.mpr rfl, hclean⟩
      · rw [if_neg hm]
        simp only
        refine ⟨_, List.mem_append.mpr (Or.inl ?_), hclean⟩
        rw [if_neg hclne]
        exact List.mem_singleton.mpr rfl

/-- Witness for C5 (amended), on the concrete 3-of-5 run: `b1` is
abandoned having resolved in no attempt, `a1` resolved on the first
attempt and its result was submitted, and no log line was emitted. -/
theorem c5_resolution_amended_witness :
    "b1" ∈ (workerRun c5resp c5batch).abandoned ∧
    ("b1" ∈ c5batch ∧ ∀ j, j < 3 → findData "b1" (c5resp j) = none) ∧
    (∃ mp ∈ (workerRun c5resp c5batch).submissions, ("a1", 1) ∈ mp) ∧
    (workerRun c5resp c5batch).logs = [] :=
  ⟨by decide,
   (c5_resolution_amended c5resp c5batch).1 "b1" (by decide),
   (c5_resolution_amended c5resp c5batch).2.2.2.1 "a1" (by decide) 1 rfl,
   (c5_resolution_amended c5resp c5batch).2.2.2.2⟩

end PostProcessing
